import Mathlib

/-!
Verification development for the automated data pipeline of the
4-Ali-Farzan-Tahaa_Trends repository.

The definitions below are a shallow embedding of the Python source:
* `src/pipeline/data_pipeline.py` — `AutomatedDataPipeline`
  (`_sanitize_datetime_fields`, `store_apps_data`, `store_events_data`,
  `deduplicate_apps_cache`, `execute_job`, `run_job_async`, `run_scheduler`,
  `steam_comprehensive_scrape`, `get_pipeline_status`);
* `src/models.py` — the SQLAlchemy models `App` and `Event`.

Python dictionaries are modelled as association lists `List (String × Value)`
(Python dict keys are unique; theorems that need this carry an explicit
`Nodup` hypothesis on the keys).  Python `datetime` objects are modelled by
`PyDateTime` (naive components plus an optional UTC offset for awareness).
The database is modelled as a list of rows, each row an association list over
the table's column names; SQL `NULL` is `Value.none`.
-/

namespace Trends

/-- Model of a Python `datetime.datetime`: wall-clock components plus an
optional fixed UTC offset in seconds (`none` = timezone-naive,
`some off` = timezone-aware, mirroring `tzinfo`). -/
structure PyDateTime where
  year : Nat
  month : Nat
  day : Nat
  hour : Nat
  minute : Nat
  second : Nat
  microsecond : Nat
  tz : Option Int
deriving DecidableEq, Repr

/-- `dt.replace(tzinfo=None)`: drop the timezone, keep the wall clock. -/
def stripTz (d : PyDateTime) : PyDateTime := { d with tz := none }

/-- A datetime is timezone-aware iff it carries a `tzinfo`. -/
def PyDateTime.isAware (d : PyDateTime) : Bool := d.tz.isSome

/-- Model of the Python values that occur in scraped records:
`None`, strings, numbers (ints and floats collapsed into `ℚ`), datetimes. -/
inductive Value where
  | none : Value
  | str : String → Value
  | num : ℚ → Value
  | dt : PyDateTime → Value
deriving DecidableEq, Repr

/-- Python truthiness of a `Value` (`if sanitized[field]:`):
`None`, `""` and `0` are falsy; datetimes are always truthy. -/
def Value.truthy : Value → Bool
  | .none => false
  | .str s => !s.isEmpty
  | .num q => q ≠ 0
  | .dt _ => true

/-- `Value.isAwareDt v` holds iff `v` is a timezone-aware datetime. -/
def Value.isAwareDt : Value → Bool
  | .dt d => d.isAware
  | _ => false

/-- A Python dict (a scraped record, or a database row): association list. -/
abbrev Record := List (String × Value)

/-- First-match lookup on an association list (Python `d.get(k)` /
`k in d` combined with indexing; dict keys are unique in Python). -/
def rlookup {β : Type} : List (String × β) → String → Option β
  | [], _ => Option.none
  | (k', v) :: rest, k => if k' = k then some v else rlookup rest k

/-- `d[k] = v`: replace the first binding of `k` if present, else append
(Python dict assignment creates the key when absent). -/
def setEntry {β : Type} : List (String × β) → String → β → List (String × β)
  | [], k, v => [(k, v)]
  | (k', v') :: rest, k, v =>
      if k' = k then (k, v) :: rest else (k', v') :: setEntry rest k v

/-- Value stored at a column, with SQL `NULL` (= Python `None`) for an
absent binding; matches `sanitized_data.get('app_store_id')` which returns
`None` when the key is missing. -/
def getVal (r : Record) (k : String) : Value := (rlookup r k).getD .none

@[simp] theorem rlookup_nil {β : Type} (k : String) :
    rlookup ([] : List (String × β)) k = Option.none := rfl

theorem rlookup_cons {β : Type} (k' k : String) (v : β) (rest : List (String × β)) :
    rlookup ((k', v) :: rest) k = if k' = k then some v else rlookup rest k := rfl

theorem rlookup_setEntry_self {β : Type} (r : List (String × β)) (k : String) (v : β) :
    rlookup (setEntry r k v) k = some v := by
  induction r with
  | nil => simp [setEntry, rlookup]
  | cons hd tl ih =>
      obtain ⟨k', v'⟩ := hd
      by_cases h : k' = k
      · simp [setEntry, h, rlookup]
      · simp [setEntry, h, rlookup, ih]

theorem rlookup_setEntry_other {β : Type} (r : List (String × β)) (k k' : String) (v : β)
    (hne : k ≠ k') : rlookup (setEntry r k v) k' = rlookup r k' := by
  induction r with
  | nil => simp [setEntry, rlookup, hne]
  | cons hd tl ih =>
      obtain ⟨k₀, v₀⟩ := hd
      by_cases h : k₀ = k
      · subst h
        simp [setEntry, rlookup, hne]
      · simp [setEntry, h, rlookup, ih]

/-- `setEntry` on a key that is present does not change the key list. -/
theorem setEntry_keys_of_present {β : Type} (r : List (String × β)) (k : String) (v : β)
    (h : (rlookup r k).isSome) : (setEntry r k v).map Prod.fst = r.map Prod.fst := by
  induction r with
  | nil => simp [rlookup] at h
  | cons hd tl ih =>
      obtain ⟨k₀, v₀⟩ := hd
      by_cases hk : k₀ = k
      · subst hk; simp [setEntry]
      · simp only [rlookup, if_neg hk] at h
        simp [setEntry, hk, ih h]

/-! ### ISO-8601 parsing (`datetime.fromisoformat`)

The pipeline calls `datetime.fromisoformat(value.replace('Z', '+00:00'))`.
We model `str.replace('Z', '+00:00')` exactly (every `'Z'` replaced) and
`fromisoformat` by a parser for the documented format
`YYYY-MM-DD[*HH[:MM[:SS[.f{1..6}]]][+HH:MM[:SS]]]` where `*` is any single
separator character, with CPython's range validation (year ≥ 1, month 1–12,
day within the month including leap years, hour ≤ 23, minute/second ≤ 59,
offset hours ≤ 23, offset minutes/seconds ≤ 59). -/

/-- `value.replace('Z', '+00:00')`: every `'Z'` character replaced. -/
def replaceZ (s : String) : String :=
  ⟨s.toList.foldr
    (fun c acc => if c = 'Z' then '+' :: '0' :: '0' :: ':' :: '0' :: '0' :: acc
                  else c :: acc) []⟩

/-- Numeric value of a decimal digit character. -/
def digitVal (c : Char) : Nat := c.toNat - '0'.toNat

/-- Parse exactly two decimal digits. -/
def parse2 : List Char → Option (Nat × List Char)
  | a :: b :: rest =>
      if a.isDigit && b.isDigit then some (10 * digitVal a + digitVal b, rest)
      else Option.none
  | _ => Option.none

/-- Parse exactly four decimal digits. -/
def parse4 : List Char → Option (Nat × List Char)
  | a :: b :: c :: d :: rest =>
      if a.isDigit && b.isDigit && c.isDigit && d.isDigit then
        some (1000 * digitVal a + 100 * digitVal b + 10 * digitVal c + digitVal d, rest)
      else Option.none
  | _ => Option.none

/-- Gregorian leap year, as used by Python's `datetime`. -/
def isLeap (y : Nat) : Bool := (y % 4 = 0 && y % 100 ≠ 0) || y % 400 = 0

/-- Number of days in a month. -/
def daysInMonth (y m : Nat) : Nat :=
  if m = 2 then (if isLeap y then 29 else 28)
  else if m = 4 ∨ m = 6 ∨ m = 9 ∨ m = 11 then 30
  else 31

/-- Parse the mandatory `YYYY-MM-DD` date part with range validation. -/
def parseDatePart (cs : List Char) : Option ((Nat × Nat × Nat) × List Char) :=
  match parse4 cs with
  | Option.none => Option.none
  | some (y, cs₁) =>
    match cs₁ with
    | '-' :: cs₂ =>
      match parse2 cs₂ with
      | Option.none => Option.none
      | some (m, cs₃) =>
        match cs₃ with
        | '-' :: cs₄ =>
          match parse2 cs₄ with
          | Option.none => Option.none
          | some (d, cs₅) =>
            if 1 ≤ y ∧ 1 ≤ m ∧ m ≤ 12 ∧ 1 ≤ d ∧ d ≤ daysInMonth y m then
              some ((y, m, d), cs₅)
            else Option.none
        | _ => Option.none
    | _ => Option.none

/-- Parse an optional fractional-second part `.f{1..6}` (1 to 6 digits,
right-padded to microseconds). -/
def parseFrac : List Char → Option (Nat × List Char)
  | '.' :: rest =>
      let digs := rest.takeWhile Char.isDigit
      let rest' := rest.dropWhile Char.isDigit
      if 1 ≤ digs.length ∧ digs.length ≤ 6 then
        some ((digs.foldl (fun acc c => 10 * acc + digitVal c) 0) *
                10 ^ (6 - digs.length), rest')
      else Option.none
  | _ => Option.none

/-- Parse the `[:SS[.frac]]` tail of a time. -/
def parseSecPart (cs : List Char) : Option ((Nat × Nat) × List Char) :=
  match cs with
  | ':' :: cs₁ =>
    match parse2 cs₁ with
    | Option.none => Option.none
    | some (s, cs₂) =>
      match parseFrac cs₂ with
      | some (us, cs₃) => some ((s, us), cs₃)
      | Option.none => some ((s, 0), cs₂)
  | _ => some ((0, 0), cs)

/-- Parse the time-of-day `HH[:MM[:SS[.frac]]]`. -/
def parseTimePart (cs : List Char) : Option ((Nat × Nat × Nat × Nat) × List Char) :=
  match parse2 cs with
  | Option.none => Option.none
  | some (h, cs₁) =>
    match cs₁ with
    | ':' :: cs₂ =>
      match parse2 cs₂ with
      | Option.none => Option.none
      | some (mi, cs₃) =>
        match parseSecPart cs₃ with
        | Option.none => Option.none
        | some ((s, us), cs₄) => some ((h, mi, s, us), cs₄)
    | _ => some ((h, 0, 0, 0), cs₁)

/-- Parse a trailing UTC offset `±HH:MM[:SS]`; the whole input must be
consumed.  Returns the offset in seconds. -/
def parseOffset (cs : List Char) : Option (Option Int)
  := match cs with
  | [] => some Option.none
  | sign :: cs₁ =>
    if sign = '+' ∨ sign = '-' then
      match parse2 cs₁ with
      | Option.none => Option.none
      | some (oh, cs₂) =>
        match cs₂ with
        | ':' :: cs₃ =>
          match parse2 cs₃ with
          | Option.none => Option.none
          | some (om, cs₄) =>
            match cs₄ with
            | [] =>
              if oh ≤ 23 ∧ om ≤ 59 then
                some (some ((if sign = '-' then -1 else 1) * (3600 * oh + 60 * om)))
              else Option.none
            | ':' :: cs₅ =>
              match parse2 cs₅ with
              | Option.none => Option.none
              | some (os, cs₆) =>
                if cs₆ = [] ∧ oh ≤ 23 ∧ om ≤ 59 ∧ os ≤ 59 then
                  some (some ((if sign = '-' then -1 else 1) *
                              (3600 * oh + 60 * om + os)))
                else Option.none
            | _ => Option.none
        | _ => Option.none
    else Option.none

/-- Model of `datetime.fromisoformat`: `Option.none` means the call raises
`ValueError`. -/
def isoparse (s : String) : Option PyDateTime :=
  match parseDatePart s.toList with
  | Option.none => Option.none
  | some ((y, m, d), rest) =>
    match rest with
    | [] => some ⟨y, m, d, 0, 0, 0, 0, Option.none⟩
    | _ :: timeCs =>   -- any single separator character
      match parseTimePart timeCs with
      | Option.none => Option.none
      | some ((h, mi, s', us), rest') =>
        if h ≤ 23 ∧ mi ≤ 59 ∧ s' ≤ 59 then
          match parseOffset rest' with
          | Option.none => Option.none
          | some off => some ⟨y, m, d, h, mi, s', us, off⟩
        else Option.none

/-! ### `AutomatedDataPipeline._sanitize_datetime_fields` -/

/-- The field list hard-coded in `_sanitize_datetime_fields`
(`data_pipeline.py` lines 833–836). -/
def datetimeFields : List String :=
  ["last_updated", "scraped_at", "release_date", "current_version_release_date",
   "start_date", "end_date", "timestamp", "created_at", "updated_at"]

/-- One iteration of the `for field in datetime_fields` loop:
`if field in sanitized and sanitized[field]: ...`.  `now` is the (naive)
result of `datetime.now()` used by the parse-failure fallback. -/
def sanitizeField (now : PyDateTime) (r : Record) (f : String) : Record :=
  match rlookup r f with
  | Option.none => r
  | some v =>
    if v.truthy then
      match v with
      | .str s =>
        match isoparse (replaceZ s) with
        | some d => setEntry r f (.dt (stripTz d))
        | Option.none => setEntry r f (.dt (stripTz now))
      | .dt d => setEntry r f (.dt (stripTz d))
      | _ => r
    else r

/-- `AutomatedDataPipeline._sanitize_datetime_fields` (lines 828–855):
copy the record, then normalize each recognized timestamp field. -/
def sanitizeDatetimeFields (now : PyDateTime) (r : Record) : Record :=
  datetimeFields.foldl (sanitizeField now) r

/-! ### Sanitizer lemmas -/

theorem sanitizeField_lookup_other (now : PyDateTime) (r : Record) (g f : String)
    (hne : g ≠ f) : rlookup (sanitizeField now r g) f = rlookup r f := by
  unfold sanitizeField
  cases hval : rlookup r g with
  | none => rfl
  | some v =>
      by_cases ht : v.truthy
      · cases v with
        | none => simp [Value.truthy] at ht
        | str s =>
            simp only [ht, if_true]
            cases isoparse (replaceZ s) <;>
              simp [rlookup_setEntry_other _ _ _ _ hne]
        | num q => simp [ht]
        | dt d => simp [ht, rlookup_setEntry_other _ _ _ _ hne]
      · simp [ht]

theorem foldl_sanitizeField_lookup_notmem (now : PyDateTime) (l : List String)
    (r : Record) (f : String) (hf : f ∉ l) :
    rlookup (l.foldl (sanitizeField now) r) f = rlookup r f := by
  induction l generalizing r with
  | nil => rfl
  | cons g rest ih =>
      have hgf : g ≠ f := fun h => hf (h ▸ List.mem_cons_self g rest)
      have hf' : f ∉ rest := fun h => hf (List.mem_cons_of_mem _ h)
      simp only [List.foldl_cons]
      rw [ih _ hf', sanitizeField_lookup_other now r g f hgf]

theorem sanitizeField_lookup_congr (now : PyDateTime) (r₁ r₂ : Record) (f : String)
    (h : rlookup r₁ f = rlookup r₂ f) :
    rlookup (sanitizeField now r₁ f) f = rlookup (sanitizeField now r₂ f) f := by
  unfold sanitizeField
  rw [h]
  cases hval : rlookup r₂ f with
  | none => exact h
  | some v =>
      by_cases ht : v.truthy
      · cases v with
        | none => simp [Value.truthy] at ht
        | str s =>
            simp only [ht, if_true]
            cases isoparse (replaceZ s) <;>
              simp [rlookup_setEntry_self]
        | num q => simp [ht, h, hval]
        | dt d => simp [ht, rlookup_setEntry_self]
      · simp [ht, h, hval]

theorem datetimeFields_nodup : datetimeFields.Nodup := by decide

/-- The value a recognized field holds after the whole sanitizing pass is
exactly the value produced by that field's own loop iteration. -/
theorem sanitize_lookup_mem (now : PyDateTime) (r : Record) (f : String)
    (hf : f ∈ datetimeFields) :
    rlookup (sanitizeDatetimeFields now r) f = rlookup (sanitizeField now r f) f := by
  obtain ⟨l₁, l₂, hsplit⟩ := List.append_of_mem hf
  have hnd := datetimeFields_nodup
  rw [hsplit] at hnd
  have hnd₂ := (List.nodup_append.mp hnd).2.1
  have hdisj := (List.nodup_append.mp hnd).2.2
  have hf₂ : f ∉ l₂ := (List.nodup_cons.mp hnd₂).1
  have hf₁ : f ∉ l₁ := fun hmem => hdisj hmem (List.mem_cons_self f l₂)
  unfold sanitizeDatetimeFields
  rw [hsplit, List.foldl_append, List.foldl_cons,
      foldl_sanitizeField_lookup_notmem now l₂ _ f hf₂]
  exact sanitizeField_lookup_congr now _ r f
    (foldl_sanitizeField_lookup_notmem now l₁ r f hf₁)

/-- Keys outside the recognized field list are never touched. -/
theorem sanitize_lookup_notin (now : PyDateTime) (r : Record) (k : String)
    (hk : k ∉ datetimeFields) :
    rlookup (sanitizeDatetimeFields now r) k = rlookup r k :=
  foldl_sanitizeField_lookup_notmem now datetimeFields r k hk

theorem sanitizeField_keys (now : PyDateTime) (r : Record) (f : String) :
    (sanitizeField now r f).map Prod.fst = r.map Prod.fst := by
  unfold sanitizeField
  cases hval : rlookup r f with
  | none => rfl
  | some v =>
      have hsome : (rlookup r f).isSome := by rw [hval]; rfl
      by_cases ht : v.truthy
      · cases v with
        | none => simp [Value.truthy] at ht
        | str s =>
            simp only [ht, if_true]
            cases isoparse (replaceZ s) <;>
              simp [setEntry_keys_of_present r f _ hsome]
        | num q => simp [ht]
        | dt d => simp [ht, setEntry_keys_of_present r f _ hsome]
      · simp [ht]

theorem sanitize_keys (now : PyDateTime) (r : Record) :
    (sanitizeDatetimeFields now r).map Prod.fst = r.map Prod.fst := by
  unfold sanitizeDatetimeFields
  induction datetimeFields generalizing r with
  | nil => rfl
  | cons g rest ih =>
      simp only [List.foldl_cons]
      rw [ih (sanitizeField now r g), sanitizeField_keys]

/-! ### Claims C4, C5, C6 (sanitizer) -/

/-- A concrete timezone-naive `datetime.now()` used by witnesses. -/
def nowW : PyDateTime := ⟨2025, 6, 15, 12, 0, 0, 0, Option.none⟩

/-- C4: for every input record and every timestamp field recognized by the
source (`datetime_fields` in `_sanitize_datetime_fields`), the sanitizer's
output value at that field is never a timezone-aware datetime — it is either
the input value unchanged or a timezone-naive datetime (and the sanitizer
never deletes or invents keys, so the field is absent iff absent in the
input).  This holds for every input shape: ISO-8601 strings with or without
a trailing `Z`, aware and naive datetimes, malformed strings, absent
fields. -/
theorem sanitize_output_never_aware (now : PyDateTime) (r : Record) (f : String)
    (hf : f ∈ datetimeFields) (v : Value)
    (hv : rlookup (sanitizeDatetimeFields now r) f = some v) :
    v.isAwareDt = false ∧
      (rlookup r f = some v ∨ ∃ d, v = Value.dt d ∧ d.tz = Option.none) := by
  rw [sanitize_lookup_mem now r f hf] at hv
  unfold sanitizeField at hv
  cases hval : rlookup r f with
  | none => simp [hval] at hv
  | some w =>
      by_cases ht : w.truthy
      · cases w with
        | none => simp [Value.truthy] at ht
        | str s =>
            simp only [hval, ht, if_true] at hv
            cases hp : isoparse (replaceZ s) with
            | none =>
                simp only [hp, rlookup_setEntry_self] at hv
                cases hv
                exact ⟨rfl, Or.inr ⟨stripTz now, rfl, rfl⟩⟩
            | some d =>
                simp only [hp, rlookup_setEntry_self] at hv
                cases hv
                exact ⟨rfl, Or.inr ⟨stripTz d, rfl, rfl⟩⟩
        | num q =>
            simp only [hval, ht, if_true] at hv
            cases hv
            exact ⟨rfl, Or.inl rfl⟩
        | dt d =>
            simp only [hval, ht, if_true] at hv
            simp only [rlookup_setEntry_self] at hv
            cases hv
            exact ⟨rfl, Or.inr ⟨stripTz d, rfl, rfl⟩⟩
      · simp only [hval, ht, if_false, Bool.false_eq_true] at hv
        cases hv
        refine ⟨?_, Or.inl rfl⟩
        cases v with
        | none => rfl
        | str s => rfl
        | num q => rfl
        | dt d => simp [Value.truthy] at ht

/-- Witness for C4: a string with a trailing `Z` in `scraped_at` comes out
as a timezone-naive datetime. -/
theorem sanitize_output_never_aware_witness :
    (Value.dt ⟨2024, 2, 14, 10, 0, 0, 0, Option.none⟩).isAwareDt = false ∧
      (rlookup [("scraped_at", Value.str "2024-02-14T10:00:00Z")] "scraped_at"
          = some (Value.dt ⟨2024, 2, 14, 10, 0, 0, 0, Option.none⟩) ∨
       ∃ d, Value.dt ⟨2024, 2, 14, 10, 0, 0, 0, Option.none⟩ = Value.dt d ∧
          d.tz = Option.none) :=
  sanitize_output_never_aware nowW
    [("scraped_at", Value.str "2024-02-14T10:00:00Z")] "scraped_at" (by decide)
    (Value.dt ⟨2024, 2, 14, 10, 0, 0, 0, Option.none⟩) (by decide)

/-- C5 counterexample: an empty string is a string value present in a
recognized timestamp field that fails ISO-8601 parsing, yet the sanitizer
passes it through unchanged (Python's truthiness check `if sanitized[field]`
skips it) instead of substituting the current time. -/
theorem sanitize_empty_string_passthrough :
    rlookup (sanitizeDatetimeFields nowW [("scraped_at", Value.str "")]) "scraped_at"
        = some (Value.str "") ∧
      Value.str "" ≠ Value.dt (stripTz nowW) ∧
      isoparse (replaceZ "") = Option.none := by decide

/-- C5 amended: the sanitizer is total (never raises), and for every
non-empty (truthy) string value in a recognized timestamp field that fails
ISO-8601 parsing, the output substitutes the current time, timezone-naive;
empty strings are falsy and pass through unchanged. -/
theorem sanitize_unparsable_fallback (now : PyDateTime) (r : Record) (f s : String)
    (hf : f ∈ datetimeFields) (hval : rlookup r f = some (Value.str s))
    (hne : s.isEmpty = false) (hfail : isoparse (replaceZ s) = Option.none) :
    rlookup (sanitizeDatetimeFields now r) f = some (Value.dt (stripTz now)) := by
  rw [sanitize_lookup_mem now r f hf]
  unfold sanitizeField
  simp [hval, Value.truthy, hne, hfail, rlookup_setEntry_self]

/-- Witness for the amended C5 at the malformed string `"not-a-date"`. -/
theorem sanitize_unparsable_fallback_witness :
    rlookup (sanitizeDatetimeFields nowW [("release_date", Value.str "not-a-date")])
        "release_date" = some (Value.dt (stripTz nowW)) :=
  sanitize_unparsable_fallback nowW [("release_date", Value.str "not-a-date")]
    "release_date" "not-a-date" (by decide) (by decide) (by decide) (by decide)

/-- The eight field names listed by claim C6 (and the spec's data-model
section); the source's `datetime_fields` list additionally contains
`current_version_release_date`. -/
def specClaimedTimestampFields : List String :=
  ["last_updated", "scraped_at", "release_date", "start_date", "end_date",
   "timestamp", "created_at", "updated_at"]

/-- C6 counterexample: `current_version_release_date` is outside the claim's
eight-element set, yet the sanitizer alters it. -/
theorem sanitize_alters_ninth_field :
    ("current_version_release_date" ∈ datetimeFields) ∧
    ("current_version_release_date" ∉ specClaimedTimestampFields) ∧
    rlookup (sanitizeDatetimeFields nowW
        [("current_version_release_date", Value.str "2024-02-14T10:00:00Z")])
        "current_version_release_date"
      ≠ rlookup [("current_version_release_date", Value.str "2024-02-14T10:00:00Z")]
          "current_version_release_date" := by decide

/-- C6 amended: the sanitizer alters at most the nine fields of the source's
`datetime_fields` list (the claim's eight plus
`current_version_release_date`); every key outside that list passes through
with its value unchanged. -/
theorem sanitize_frame (now : PyDateTime) (r : Record) (k : String)
    (hk : k ∉ datetimeFields) :
    rlookup (sanitizeDatetimeFields now r) k = rlookup r k :=
  sanitize_lookup_notin now r k hk

/-- Witness for the amended C6: `title` passes through unchanged. -/
theorem sanitize_frame_witness :
    rlookup (sanitizeDatetimeFields nowW [("title", Value.str "A")]) "title"
      = rlookup [("title", Value.str "A")] "title" :=
  sanitize_frame nowW [("title", Value.str "A")] "title" (by decide)

/-! ### Persistence layer (`store_apps_data`, `store_events_data`)

The database is a list of rows.  A row is a `Record` over the table's
column names with `Value.none` for SQL `NULL`.  The session is modelled by
the pair (rows as updated in place by `setattr`, rows added by
`session.add`): the sessionmaker is configured with `autoflush=False`
(`models.py` line 151), so `session.query(...).first()` inside the loop
never sees pending inserts, and pending updates never change a row's
natural-key column (they can only rewrite it to the very value it was
matched by), so matching against the updated rows is equivalent to
matching against the database.  `session.commit()` either persists the
whole batch or raises; the `except` block logs and leaves the stored state
untouched (the session is abandoned without a commit).

Modelling notes: `hasattr(App, k)` is modelled by membership in the
column-name list (relationship attributes such as `App.reviews` are not
modelled — scraped records carry data fields only); SQLAlchemy column
defaults (`rank_velocity=0.0`, `review_count=0`, `price=0.0`) are applied
on insert; the server-side default for `last_updated` and the
autoincrement surrogate `id` are left as `NULL` in the model.  The commit
check models the `unique=True` constraint on `apps.app_store_id`
(violated only by non-NULL duplicates, as in SQLite) and the
`nullable=False` columns `events.name` and `events.start_date` for
inserted rows. -/

/-- Column names of the `App` model (`models.py` lines 25–43). -/
def appColumns : List String :=
  ["id", "app_store_id", "title", "developer", "category", "country",
   "icon_url", "description", "release_date", "current_rank", "previous_rank",
   "rank_velocity", "rating", "review_count", "price", "last_updated"]

/-- Python-side column defaults of `App` for columns absent from an
inserted record. -/
def appDefault (k : String) : Value :=
  if k = "rank_velocity" ∨ k = "review_count" ∨ k = "price" then Value.num 0
  else Value.none

/-- Column names of the `Event` model (`models.py` lines 77–88). -/
def eventColumns : List String :=
  ["id", "name", "event_type", "start_date", "end_date", "description",
   "source", "region", "tags"]

/-- Columns of the `apps` table declared `unique=True` in `models.py`. -/
def appUniqueColumns : List String := ["app_store_id"]

/-- Columns of the `events` table declared `unique=True` in `models.py`:
there are none. -/
def eventUniqueColumns : List String := []

/-- Per-table data for the shared create-or-update loop shape of
`store_apps_data` / `store_events_data`. -/
structure TableCfg where
  cols : List String
  keyField : String
  defaultVal : String → Value

def appCfg : TableCfg := ⟨appColumns, "app_store_id", appDefault⟩

def eventCfg : TableCfg := ⟨eventColumns, "name", fun _ => Value.none⟩

/-- Natural-key column value of a row (`NULL` when absent). -/
def rowKey (cfg : TableCfg) (row : Record) : Value := getVal row cfg.keyField

/-- The `for key, value in sanitized_data.items(): if hasattr(existing, key):
setattr(existing, key, value)` update loop. -/
def applyUpdate (cfg : TableCfg) (row s : Record) : Record :=
  s.foldl (fun acc kv => if kv.1 ∈ cfg.cols then setEntry acc kv.1 kv.2 else acc) row

/-- `Model(**{k: v for k, v in sanitized.items() if hasattr(Model, k)})`:
a fresh row over the table's columns, taking the record's value when the
field is present and the column default otherwise. -/
def newRow (cfg : TableCfg) (s : Record) : Record :=
  cfg.cols.map fun k =>
    (k, match rlookup s k with
        | some v => v
        | Option.none => cfg.defaultVal k)

/-- Update the first row whose natural key matches (`.first()` returns the
first matching row, and the identity map hands back the session's updated
object for it). -/
def updateFirst (cfg : TableCfg) : List Record → Value → Record → List Record
  | [], _, _ => []
  | row :: rest, k, s =>
      if rowKey cfg row = k then applyUpdate cfg row s :: rest
      else row :: updateFirst cfg rest k s

/-- One iteration of the `for ... in batch` loop of the store functions:
sanitize, look up by natural key, update the matched row or stage an
insert. -/
def storeStep (cfg : TableCfg) (now : PyDateTime)
    (st : List Record × List Record) (r : Record) : List Record × List Record :=
  if st.1.any (fun row =>
      rowKey cfg row == getVal (sanitizeDatetimeFields now r) cfg.keyField) then
    (updateFirst cfg st.1 (getVal (sanitizeDatetimeFields now r) cfg.keyField)
      (sanitizeDatetimeFields now r), st.2)
  else (st.1, st.2 ++ [newRow cfg (sanitizeDatetimeFields now r)])

/-- The whole loop: the session starts from the stored rows with no pending
inserts. -/
def storeFold (cfg : TableCfg) (now : PyDateTime) (db batch : List Record) :
    List Record × List Record :=
  batch.foldl (storeStep cfg now) (db, [])

/-- Executable key-list duplicate check. -/
def noDupKeys : List Value → Bool
  | [] => true
  | k :: rest => !rest.contains k && noDupKeys rest

/-- `session.commit()` for the `apps` table: succeeds iff the non-NULL
natural keys of the inserted rows are pairwise distinct and absent from the
stored rows (the `unique=True` index on `app_store_id`; SQLite admits any
number of NULLs under a unique index). -/
def commitApps (rows news : List Record) : Bool :=
  let rowKeys := rows.map (rowKey appCfg)
  let newKeys := (news.map (rowKey appCfg)).filter (fun v => v != Value.none)
  noDupKeys newKeys && newKeys.all (fun k => !rowKeys.contains k)

/-- `AutomatedDataPipeline.store_apps_data` (lines 733–762).  Returns the
stored rows after the call and whether the `except` branch logged an
error. -/
def storeAppsData (now : PyDateTime) (db batch : List Record) :
    List Record × Bool :=
  let st := storeFold appCfg now db batch
  if commitApps st.1 st.2 then (st.1 ++ st.2, false) else (db, true)

/-- `session.commit()` for the `events` table: no unique constraint exists;
only the `nullable=False` columns `name` and `start_date` can reject an
inserted row. -/
def commitEvents (news : List Record) : Bool :=
  news.all fun row =>
    rowKey eventCfg row != Value.none && getVal row "start_date" != Value.none

/-- `AutomatedDataPipeline.store_events_data` (lines 795–826): identical
loop shape, but the lookup key is `name` alone
(`filter_by(name=event_name)`). -/
def storeEventsData (now : PyDateTime) (db batch : List Record) :
    List Record × Bool :=
  let st := storeFold eventCfg now db batch
  if commitEvents st.2 then (st.1 ++ st.2, false) else (db, true)

/-! ### Persistence lemmas -/

theorem rlookup_eq_none_of_notmem {β : Type} (l : List (String × β)) (k : String)
    (h : k ∉ l.map Prod.fst) : rlookup l k = Option.none := by
  induction l with
  | nil => rfl
  | cons hd tl ih =>
      obtain ⟨k₀, v₀⟩ := hd
      have hne : k₀ ≠ k := fun he => h (by simp [he])
      simp only [rlookup, if_neg hne]
      exact ih fun hm => h (by simp [hm])

theorem rlookup_map_keys (l : List String) (g : String → Value) (k : String)
    (hk : k ∈ l) :
    rlookup (l.map fun k' => (k', g k')) k = some (g k) := by
  induction l with
  | nil => cases hk
  | cons a rest ih =>
      by_cases ha : a = k
      · subst ha; simp [rlookup]
      · have : k ∈ rest := by
          cases List.mem_cons.mp hk with
          | inl h => exact absurd h.symm ha
          | inr h => exact h
        simp [rlookup, ha, ih this]

theorem rowKey_newRow (cfg : TableCfg) (hcol : cfg.keyField ∈ cfg.cols)
    (hdef : cfg.defaultVal cfg.keyField = Value.none) (s : Record) :
    rowKey cfg (newRow cfg s) = getVal s cfg.keyField := by
  unfold rowKey newRow getVal
  rw [rlookup_map_keys cfg.cols _ _ hcol]
  cases h : rlookup s cfg.keyField <;> simp [h, hdef]

theorem getVal_applyUpdate (cfg : TableCfg) (row s : Record) (k : String)
    (hs : (s.map Prod.fst).Nodup) :
    getVal (applyUpdate cfg row s) k =
      match rlookup s k with
      | some v => if k ∈ cfg.cols then v else getVal row k
      | Option.none => getVal row k := by
  induction s generalizing row with
  | nil => rfl
  | cons hd rest ih =>
      obtain ⟨k₀, v₀⟩ := hd
      have hnd : (rest.map Prod.fst).Nodup := (List.nodup_cons.mp hs).2
      have hk₀ : k₀ ∉ rest.map Prod.fst := (List.nodup_cons.mp hs).1
      have hstep : applyUpdate cfg row ((k₀, v₀) :: rest)
          = applyUpdate cfg (if k₀ ∈ cfg.cols then setEntry row k₀ v₀ else row) rest := by
        unfold applyUpdate
        simp only [List.foldl_cons]
      rw [hstep, ih _ hnd]
      by_cases hkk : k₀ = k
      · subst hkk
        rw [rlookup_eq_none_of_notmem rest k₀ hk₀]
        simp only [rlookup, if_pos rfl]
        by_cases hc : k₀ ∈ cfg.cols
        · simp only [hc, if_true]
          unfold getVal
          rw [rlookup_setEntry_self]
          rfl
        · simp [hc]
      · have hstepval : ∀ row' : Record,
            getVal (if k₀ ∈ cfg.cols then setEntry row' k₀ v₀ else row') k
              = getVal row' k := by
          intro row'
          by_cases hc₀ : k₀ ∈ cfg.cols
          · simp only [hc₀, if_true]
            unfold getVal
            rw [rlookup_setEntry_other row' k₀ k v₀ hkk]
          · simp [hc₀]
        simp only [rlookup, if_neg hkk]
        cases hrest : rlookup rest k
        · simp [hstepval]
        · simp only []
          by_cases hc : k ∈ cfg.cols
          · simp [hc]
          · simp [hc, hstepval]

theorem rowKey_applyUpdate (cfg : TableCfg) (row s : Record)
    (hs : (s.map Prod.fst).Nodup) (hcol : cfg.keyField ∈ cfg.cols)
    (hmatch : rowKey cfg row = getVal s cfg.keyField) :
    rowKey cfg (applyUpdate cfg row s) = rowKey cfg row := by
  unfold rowKey
  rw [getVal_applyUpdate cfg row s cfg.keyField hs]
  cases h : rlookup s cfg.keyField with
  | none => rfl
  | some v =>
      simp only [hcol, if_true]
      unfold rowKey at hmatch
      rw [hmatch]
      unfold getVal
      rw [h]
      rfl

theorem length_updateFirst (cfg : TableCfg) (rows : List Record) (k : Value)
    (s : Record) : (updateFirst cfg rows k s).length = rows.length := by
  induction rows with
  | nil => rfl
  | cons row rest ih =>
      unfold updateFirst
      by_cases h : rowKey cfg row = k <;> simp [h, ih]

theorem mapKey_updateFirst (cfg : TableCfg) (rows : List Record) (s : Record)
    (hs : (s.map Prod.fst).Nodup) (hcol : cfg.keyField ∈ cfg.cols) :
    (updateFirst cfg rows (getVal s cfg.keyField) s).map (rowKey cfg)
      = rows.map (rowKey cfg) := by
  induction rows with
  | nil => rfl
  | cons row rest ih =>
      unfold updateFirst
      by_cases h : rowKey cfg row = getVal s cfg.keyField
      · rw [if_pos h]
        simp only [List.map_cons]
        rw [rowKey_applyUpdate cfg row s hs hcol h]
      · rw [if_neg h]
        simp only [List.map_cons]
        rw [ih]

theorem anyKey_iff (cfg : TableCfg) (rows : List Record) (k : Value) :
    (rows.any fun row => rowKey cfg row == k) = true
      ↔ k ∈ rows.map (rowKey cfg) := by
  simp only [List.any_eq_true, beq_iff_eq, List.mem_map]

theorem getVal_sanitize_notin (now : PyDateTime) (r : Record) (k : String)
    (hk : k ∉ datetimeFields) :
    getVal (sanitizeDatetimeFields now r) k = getVal r k := by
  unfold getVal
  rw [sanitize_lookup_notin now r k hk]

theorem sanitize_nodup_keys (now : PyDateTime) (r : Record)
    (hr : (r.map Prod.fst).Nodup) :
    ((sanitizeDatetimeFields now r).map Prod.fst).Nodup := by
  rw [sanitize_keys]; exact hr

section StoreFoldLemmas

variable (cfg : TableCfg)

theorem storeFold_mapKey (now : PyDateTime) (batch : List Record)
    (st : List Record × List Record)
    (hcol : cfg.keyField ∈ cfg.cols)
    (hb : ∀ r ∈ batch, (r.map Prod.fst).Nodup) :
    (batch.foldl (storeStep cfg now) st).1.map (rowKey cfg)
      = st.1.map (rowKey cfg) := by
  induction batch generalizing st with
  | nil => rfl
  | cons r rest ih =>
      rw [List.foldl_cons, ih _ fun x hx => hb x (List.mem_cons_of_mem _ hx)]
      unfold storeStep
      by_cases hany :
          (st.1.any fun row =>
            rowKey cfg row == getVal (sanitizeDatetimeFields now r) cfg.keyField) = true
      · simp only [hany, if_true]
        exact mapKey_updateFirst cfg st.1 _
          (sanitize_nodup_keys now r (hb r (List.mem_cons_self r rest))) hcol
      · simp [hany]

theorem storeFold_news_ext (now : PyDateTime) (batch : List Record)
    (st : List Record × List Record) :
    ∃ ext, (batch.foldl (storeStep cfg now) st).2 = st.2 ++ ext := by
  induction batch generalizing st with
  | nil => exact ⟨[], (List.append_nil st.2).symm⟩
  | cons r rest ih =>
      rw [List.foldl_cons]
      by_cases hany :
          (st.1.any fun row =>
            rowKey cfg row == getVal (sanitizeDatetimeFields now r) cfg.keyField) = true
      · have hs : storeStep cfg now st r
            = (updateFirst cfg st.1
                (getVal (sanitizeDatetimeFields now r) cfg.keyField)
                (sanitizeDatetimeFields now r), st.2) := by
          unfold storeStep; rw [if_pos hany]
        rw [hs]
        exact ih _
      · have hs : storeStep cfg now st r
            = (st.1, st.2 ++ [newRow cfg (sanitizeDatetimeFields now r)]) := by
          unfold storeStep; rw [if_neg hany]
        rw [hs]
        obtain ⟨ext, hext⟩ := ih (st.1, st.2 ++ [newRow cfg (sanitizeDatetimeFields now r)])
        exact ⟨[newRow cfg (sanitizeDatetimeFields now r)] ++ ext, by
          rw [hext, List.append_assoc]⟩

theorem storeFold_key_present (now : PyDateTime) (batch : List Record)
    (st : List Record × List Record)
    (hnotin : cfg.keyField ∉ datetimeFields)
    (hcol : cfg.keyField ∈ cfg.cols)
    (hdef : cfg.defaultVal cfg.keyField = Value.none)
    (hb : ∀ r ∈ batch, (r.map Prod.fst).Nodup) :
    ∀ r ∈ batch,
      getVal r cfg.keyField ∈
        (batch.foldl (storeStep cfg now) st).1.map (rowKey cfg)
          ++ (batch.foldl (storeStep cfg now) st).2.map (rowKey cfg) := by
  induction batch generalizing st with
  | nil => intro r hr; cases hr
  | cons r₀ rest ih =>
      intro r hr
      rw [List.foldl_cons]
      have hbrest : ∀ x ∈ rest, (x.map Prod.fst).Nodup :=
        fun x hx => hb x (List.mem_cons_of_mem _ hx)
      cases List.mem_cons.mp hr with
      | inr hmem => exact ih _ hbrest r hmem
      | inl heq =>
          subst heq
          have hkey : getVal (sanitizeDatetimeFields now r) cfg.keyField
              = getVal r cfg.keyField := getVal_sanitize_notin now r _ hnotin
          have hstep : getVal r cfg.keyField ∈
              (storeStep cfg now st r).1.map (rowKey cfg)
                ++ (storeStep cfg now st r).2.map (rowKey cfg) := by
            unfold storeStep
            by_cases hany :
                (st.1.any fun row =>
                  rowKey cfg row == getVal (sanitizeDatetimeFields now r) cfg.keyField)
                  = true
            · simp only [hany, if_true]
              apply List.mem_append_left
              rw [mapKey_updateFirst cfg st.1 _
                (sanitize_nodup_keys now r (hb r (List.mem_cons_self r rest))) hcol]
              have := (anyKey_iff cfg st.1 _).mp hany
              rwa [hkey] at this
            · simp only [hany, if_false, Bool.false_eq_true]
              apply List.mem_append_right
              rw [List.map_append]
              apply List.mem_append_right
              simp only [List.map_cons, List.map_nil, List.mem_singleton]
              rw [rowKey_newRow cfg hcol hdef _, hkey]
          rcases List.mem_append.mp hstep with hin1 | hin2
          · apply List.mem_append_left
            rw [storeFold_mapKey cfg now rest _ hcol hbrest]
            exact hin1
          · apply List.mem_append_right
            obtain ⟨ext, hext⟩ := storeFold_news_ext cfg now rest (storeStep cfg now st r)
            rw [hext, List.map_append]
            exact List.mem_append_left _ hin2

theorem storeFold_all_matched (now : PyDateTime) (batch : List Record)
    (st : List Record × List Record)
    (hnotin : cfg.keyField ∉ datetimeFields)
    (hcol : cfg.keyField ∈ cfg.cols)
    (hb : ∀ r ∈ batch, (r.map Prod.fst).Nodup)
    (hall : ∀ r ∈ batch, getVal r cfg.keyField ∈ st.1.map (rowKey cfg)) :
    (batch.foldl (storeStep cfg now) st).2 = st.2 ∧
    (batch.foldl (storeStep cfg now) st).1.map (rowKey cfg)
      = st.1.map (rowKey cfg) := by
  induction batch generalizing st with
  | nil => exact ⟨rfl, rfl⟩
  | cons r rest ih =>
      rw [List.foldl_cons]
      have hkey : getVal (sanitizeDatetimeFields now r) cfg.keyField
          = getVal r cfg.keyField := getVal_sanitize_notin now r _ hnotin
      have hany : (st.1.any fun row =>
          rowKey cfg row == getVal (sanitizeDatetimeFields now r) cfg.keyField)
          = true := by
        rw [anyKey_iff, hkey]
        exact hall r (List.mem_cons_self r rest)
      have hsnd : (r.map Prod.fst).Nodup := hb r (List.mem_cons_self r rest)
      have hstep : storeStep cfg now st r
          = (updateFirst cfg st.1
              (getVal (sanitizeDatetimeFields now r) cfg.keyField)
              (sanitizeDatetimeFields now r), st.2) := by
        unfold storeStep
        simp [hany]
      have hkeys : (updateFirst cfg st.1
            (getVal (sanitizeDatetimeFields now r) cfg.keyField)
            (sanitizeDatetimeFields now r)).map (rowKey cfg)
          = st.1.map (rowKey cfg) :=
        mapKey_updateFirst cfg st.1 _ (sanitize_nodup_keys now r hsnd) hcol
      rw [hstep]
      have hall' : ∀ x ∈ rest, getVal x cfg.keyField ∈
          (updateFirst cfg st.1
            (getVal (sanitizeDatetimeFields now r) cfg.keyField)
            (sanitizeDatetimeFields now r)).map (rowKey cfg) := by
        intro x hx
        rw [hkeys]
        exact hall x (List.mem_cons_of_mem _ hx)
      have := ih (updateFirst cfg st.1
            (getVal (sanitizeDatetimeFields now r) cfg.keyField)
            (sanitizeDatetimeFields now r), st.2)
        (fun x hx => hb x (List.mem_cons_of_mem _ hx)) hall'
      exact ⟨this.1, by rw [this.2, hkeys]⟩

theorem storeFold_keys_now_indep (now now' : PyDateTime) (batch : List Record)
    (st st' : List Record × List Record)
    (hnotin : cfg.keyField ∉ datetimeFields)
    (hcol : cfg.keyField ∈ cfg.cols)
    (hdef : cfg.defaultVal cfg.keyField = Value.none)
    (hb : ∀ r ∈ batch, (r.map Prod.fst).Nodup)
    (h1 : st.1.map (rowKey cfg) = st'.1.map (rowKey cfg))
    (h2 : st.2.map (rowKey cfg) = st'.2.map (rowKey cfg)) :
    (batch.foldl (storeStep cfg now) st).1.map (rowKey cfg)
        = (batch.foldl (storeStep cfg now') st').1.map (rowKey cfg) ∧
    (batch.foldl (storeStep cfg now) st).2.map (rowKey cfg)
        = (batch.foldl (storeStep cfg now') st').2.map (rowKey cfg) := by
  induction batch generalizing st st' with
  | nil => exact ⟨h1, h2⟩
  | cons r rest ih =>
      rw [List.foldl_cons, List.foldl_cons]
      have hsnd : (r.map Prod.fst).Nodup := hb r (List.mem_cons_self r rest)
      have hkey : getVal (sanitizeDatetimeFields now r) cfg.keyField
          = getVal r cfg.keyField := getVal_sanitize_notin now r _ hnotin
      have hkey' : getVal (sanitizeDatetimeFields now' r) cfg.keyField
          = getVal r cfg.keyField := getVal_sanitize_notin now' r _ hnotin
      have hbrest : ∀ x ∈ rest, (x.map Prod.fst).Nodup :=
        fun x hx => hb x (List.mem_cons_of_mem _ hx)
      by_cases hmem : getVal r cfg.keyField ∈ st.1.map (rowKey cfg)
      · have hany : (st.1.any fun row =>
            rowKey cfg row == getVal (sanitizeDatetimeFields now r) cfg.keyField)
            = true := by rw [anyKey_iff, hkey]; exact hmem
        have hany' : (st'.1.any fun row =>
            rowKey cfg row == getVal (sanitizeDatetimeFields now' r) cfg.keyField)
            = true := by rw [anyKey_iff, hkey']; rw [h1] at hmem; exact hmem
        have hs1 : storeStep cfg now st r
            = (updateFirst cfg st.1
                (getVal (sanitizeDatetimeFields now r) cfg.keyField)
                (sanitizeDatetimeFields now r), st.2) := by
          unfold storeStep; simp [hany]
        have hs2 : storeStep cfg now' st' r
            = (updateFirst cfg st'.1
                (getVal (sanitizeDatetimeFields now' r) cfg.keyField)
                (sanitizeDatetimeFields now' r), st'.2) := by
          unfold storeStep; simp [hany']
        rw [hs1, hs2]
        exact ih _ _ hbrest
          (by rw [mapKey_updateFirst cfg st.1 _ (sanitize_nodup_keys now r hsnd) hcol,
                  mapKey_updateFirst cfg st'.1 _ (sanitize_nodup_keys now' r hsnd) hcol,
                  h1])
          h2
      · have hany : (st.1.any fun row =>
            rowKey cfg row == getVal (sanitizeDatetimeFields now r) cfg.keyField)
            = false := by
          rw [Bool.eq_false_iff]
          intro hc
          exact hmem (by rw [← hkey]; exact (anyKey_iff cfg st.1 _).mp hc)
        have hany' : (st'.1.any fun row =>
            rowKey cfg row == getVal (sanitizeDatetimeFields now' r) cfg.keyField)
            = false := by
          rw [Bool.eq_false_iff]
          intro hc
          rw [h1] at hmem
          exact hmem (by rw [← hkey']; exact (anyKey_iff cfg st'.1 _).mp hc)
        have hs1 : storeStep cfg now st r
            = (st.1, st.2 ++ [newRow cfg (sanitizeDatetimeFields now r)]) := by
          unfold storeStep; simp [hany]
        have hs2 : storeStep cfg now' st' r
            = (st'.1, st'.2 ++ [newRow cfg (sanitizeDatetimeFields now' r)]) := by
          unfold storeStep; simp [hany']
        rw [hs1, hs2]
        exact ih _ _ hbrest h1
          (by rw [List.map_append, List.map_append, h2]
              simp only [List.map_cons, List.map_nil]
              rw [rowKey_newRow cfg hcol hdef _, rowKey_newRow cfg hcol hdef _,
                  hkey, hkey'])

end StoreFoldLemmas

theorem commitApps_nil (rows : List Record) : commitApps rows [] = true := rfl

theorem commitApps_keys_eq (rows rows' news news' : List Record)
    (h1 : rows.map (rowKey appCfg) = rows'.map (rowKey appCfg))
    (h2 : news.map (rowKey appCfg) = news'.map (rowKey appCfg)) :
    commitApps rows news = commitApps rows' news' := by
  unfold commitApps
  rw [h1, h2]

theorem commitEvents_nil : commitEvents [] = true := rfl

/-! ### Claims C2, C3, C7 (persistence) -/

/-- The first batch record of the spec's upsert scenario. -/
def upsertRec1 : Record :=
  [("app_store_id", Value.str "123"), ("title", Value.str "A"),
   ("rating", Value.num 4)]

/-- The second batch record of the spec's upsert scenario (`rating` 4.5). -/
def upsertRec2 : Record :=
  [("app_store_id", Value.str "123"), ("title", Value.str "A"),
   ("rating", Value.num (9/2))]

/-- C2: a batch handed to `store_apps_data` is committed atomically — when
the `except` branch logs an error the stored rows are exactly what they
were before the call (the session is abandoned before any commit), and
when no error is logged every record of the batch is persisted (a stored
row carries its natural key). -/
theorem store_apps_batch_atomic (now : PyDateTime) (db batch : List Record)
    (hb : ∀ r ∈ batch, (r.map Prod.fst).Nodup) :
    ((storeAppsData now db batch).2 = true → (storeAppsData now db batch).1 = db) ∧
    ((storeAppsData now db batch).2 = false →
      ∀ r ∈ batch, getVal r "app_store_id" ∈
        ((storeAppsData now db batch).1).map (rowKey appCfg)) := by
  unfold storeAppsData storeFold
  by_cases hc : commitApps (List.foldl (storeStep appCfg now) (db, []) batch).1
      (List.foldl (storeStep appCfg now) (db, []) batch).2 = true
  · rw [if_pos hc]
    constructor
    · intro h; simp at h
    · intro _ r hr
      have := storeFold_key_present appCfg now batch (db, [])
        (by decide) (by decide) (by decide) hb r hr
      rw [List.map_append]
      exact this
  · rw [if_neg hc]
    exact ⟨fun _ => rfl, fun h => by simp at h⟩

/-- Witness for C2: a successful singleton batch persists its record. -/
theorem store_apps_batch_atomic_witness :
    (storeAppsData nowW [] [upsertRec1]).2 = false ∧
    getVal upsertRec1 "app_store_id" ∈
      ((storeAppsData nowW [] [upsertRec1]).1).map (rowKey appCfg) :=
  ⟨by decide,
   (store_apps_batch_atomic nowW [] [upsertRec1] (by decide)).2 (by decide)
     upsertRec1 (List.mem_singleton.mpr rfl)⟩

/-- C3: upserting the identical batch twice leaves the row count of the
first call unchanged (no duplicate rows for the same natural key), and the
spec's scenario — upserting `app_store_id 123` with rating 4 and then with
rating 4.5 — leaves exactly one row for `123`, carrying rating 4.5. -/
theorem store_apps_upsert_idempotent :
    (∀ now₁ now₂ : PyDateTime, ∀ db batch : List Record,
      (∀ r ∈ batch, (r.map Prod.fst).Nodup) →
      ((storeAppsData now₂ (storeAppsData now₁ db batch).1 batch).1).length
        = ((storeAppsData now₁ db batch).1).length) ∧
    ((storeAppsData nowW (storeAppsData nowW [] [upsertRec1]).1 [upsertRec2]).1).map
        (fun row => (rowKey appCfg row, getVal row "rating"))
      = [(Value.str "123", Value.num (9/2))] := by
  constructor
  · intro now₁ now₂ db batch hb
    have hnotin : appCfg.keyField ∉ datetimeFields := by decide
    have hcol : appCfg.keyField ∈ appCfg.cols := by decide
    have hdef : appCfg.defaultVal appCfg.keyField = Value.none := by decide
    unfold storeAppsData storeFold
    by_cases hc : commitApps (List.foldl (storeStep appCfg now₁) (db, []) batch).1
        (List.foldl (storeStep appCfg now₁) (db, []) batch).2 = true
    · rw [if_pos hc]
      dsimp only
      have hall : ∀ r ∈ batch, getVal r appCfg.keyField ∈
          ((List.foldl (storeStep appCfg now₁) (db, []) batch).1
            ++ (List.foldl (storeStep appCfg now₁) (db, []) batch).2).map
              (rowKey appCfg) := by
        intro r hr
        rw [List.map_append]
        exact storeFold_key_present appCfg now₁ batch (db, [])
          hnotin hcol hdef hb r hr
      have hm := storeFold_all_matched appCfg now₂ batch
        ((List.foldl (storeStep appCfg now₁) (db, []) batch).1
          ++ (List.foldl (storeStep appCfg now₁) (db, []) batch).2, [])
        hnotin hcol hb hall
      have hc₂ : commitApps
          (List.foldl (storeStep appCfg now₂)
            ((List.foldl (storeStep appCfg now₁) (db, []) batch).1
              ++ (List.foldl (storeStep appCfg now₁) (db, []) batch).2, []) batch).1
          (List.foldl (storeStep appCfg now₂)
            ((List.foldl (storeStep appCfg now₁) (db, []) batch).1
              ++ (List.foldl (storeStep appCfg now₁) (db, []) batch).2, []) batch).2
          = true := by
        rw [hm.1]
        exact commitApps_nil _
      rw [if_pos hc₂, hm.1, List.append_nil]
      have := congrArg List.length hm.2
      simpa using this
    · rw [if_neg hc]
      dsimp only
      have hkeys := storeFold_keys_now_indep appCfg now₂ now₁ batch (db, []) (db, [])
        hnotin hcol hdef hb rfl rfl
      have hceq : commitApps (List.foldl (storeStep appCfg now₂) (db, []) batch).1
            (List.foldl (storeStep appCfg now₂) (db, []) batch).2
          = commitApps (List.foldl (storeStep appCfg now₁) (db, []) batch).1
            (List.foldl (storeStep appCfg now₁) (db, []) batch).2 :=
        commitApps_keys_eq _ _ _ _ hkeys.1 hkeys.2
      rw [if_neg (by rw [hceq]; exact hc)]
  · rfl

/-- Witness for C3: the identical singleton batch stored twice keeps the
row count at one. -/
theorem store_apps_upsert_idempotent_witness :
    ((storeAppsData nowW (storeAppsData nowW [] [upsertRec1]).1 [upsertRec1]).1).length
      = ((storeAppsData nowW [] [upsertRec1]).1).length :=
  store_apps_upsert_idempotent.1 nowW nowW [] [upsertRec1] (by decide)

/-- First event of the C7 counterexample: `GDC` in 2024. -/
def gdcA : Record :=
  [("name", Value.str "GDC"),
   ("start_date", Value.str "2024-03-18T00:00:00"),
   ("event_type", Value.str "conference")]

/-- Second event of the C7 counterexample: `GDC` one year later. -/
def gdcB : Record :=
  [("name", Value.str "GDC"),
   ("start_date", Value.str "2025-03-17T00:00:00")]

/-- C7 counterexample: the `events` table declares no unique constraint at
all, and `store_events_data` matches rows by `name` alone, so two events
sharing a name but carrying different dates are merged into a single row
(the second overwrites the first) instead of being kept as distinct
rows. -/
theorem store_events_merges_distinct_dates :
    eventUniqueColumns = [] ∧
    ((storeEventsData nowW (storeEventsData nowW [] [gdcA]).1 [gdcB]).1).length = 1 ∧
    ((storeEventsData nowW (storeEventsData nowW [] [gdcA]).1 [gdcB]).1).map
        (fun row => (getVal row "name", getVal row "start_date"))
      = [(Value.str "GDC", Value.dt ⟨2025, 3, 17, 0, 0, 0, 0, Option.none⟩)] :=
  ⟨rfl, by decide, by decide⟩

/-- C7 amended: event rows are identified by `name` alone (the schema has
no unique constraint; `models.py` declares none on `events`), and after a
successful store of an event, storing any further event with the same
`name` updates the matched row in place — the row count does not grow,
even when the dates differ. -/
theorem store_events_name_key (now₁ now₂ : PyDateTime) (db : List Record)
    (e₁ e₂ : Record)
    (h₁ : (e₁.map Prod.fst).Nodup) (h₂ : (e₂.map Prod.fst).Nodup)
    (hname : getVal e₁ "name" = getVal e₂ "name")
    (hsucc : (storeEventsData now₁ db [e₁]).2 = false) :
    ((storeEventsData now₂ (storeEventsData now₁ db [e₁]).1 [e₂]).1).length
      = ((storeEventsData now₁ db [e₁]).1).length := by
  have hnotin : eventCfg.keyField ∉ datetimeFields := by decide
  have hcol : eventCfg.keyField ∈ eventCfg.cols := by decide
  have hdef : eventCfg.defaultVal eventCfg.keyField = Value.none := rfl
  have hb₁ : ∀ x ∈ [e₁], (x.map Prod.fst).Nodup := by
    intro x hx; rw [List.mem_singleton] at hx; subst hx; exact h₁
  have hb₂ : ∀ x ∈ [e₂], (x.map Prod.fst).Nodup := by
    intro x hx; rw [List.mem_singleton] at hx; subst hx; exact h₂
  unfold storeEventsData storeFold at hsucc ⊢
  by_cases hc : commitEvents (List.foldl (storeStep eventCfg now₁) (db, []) [e₁]).2
      = true
  · rw [if_pos hc]
    dsimp only
    have hall : ∀ r ∈ [e₂], getVal r eventCfg.keyField ∈
        ((List.foldl (storeStep eventCfg now₁) (db, []) [e₁]).1
          ++ (List.foldl (storeStep eventCfg now₁) (db, []) [e₁]).2).map
            (rowKey eventCfg) := by
      intro r hr
      rw [List.mem_singleton] at hr
      rw [hr, List.map_append,
          show getVal e₂ eventCfg.keyField = getVal e₁ eventCfg.keyField from hname.symm]
      exact storeFold_key_present eventCfg now₁ [e₁] (db, [])
        hnotin hcol hdef hb₁ e₁ (List.mem_singleton.mpr rfl)
    have hm := storeFold_all_matched eventCfg now₂ [e₂]
      ((List.foldl (storeStep eventCfg now₁) (db, []) [e₁]).1
        ++ (List.foldl (storeStep eventCfg now₁) (db, []) [e₁]).2, [])
      hnotin hcol hb₂ hall
    have hc₂ : commitEvents
        (List.foldl (storeStep eventCfg now₂)
          ((List.foldl (storeStep eventCfg now₁) (db, []) [e₁]).1
            ++ (List.foldl (storeStep eventCfg now₁) (db, []) [e₁]).2, []) [e₂]).2
        = true := by
      rw [hm.1]
      exact commitEvents_nil
    rw [if_pos hc₂, hm.1, List.append_nil]
    have := congrArg List.length hm.2
    simpa using this
  · rw [if_neg hc] at hsucc
    simp at hsucc

/-- Witness for the amended C7 at the two concrete `GDC` events. -/
theorem store_events_name_key_witness :
    ((storeEventsData nowW (storeEventsData nowW [] [gdcA]).1 [gdcB]).1).length
      = ((storeEventsData nowW [] [gdcA]).1).length :=
  store_events_name_key nowW nowW [] gdcA gdcB (by decide) (by decide)
    (by decide) (by decide)

/-! ### Job execution (`execute_job`, C8 and C10) -/

/-- Python `str.replace('_scrape', '')`: remove every non-overlapping
occurrence of `'_scrape'`, scanning left to right (first matching
alternative wins). -/
def stripScrapeAux : List Char → List Char
  | '_' :: 's' :: 'c' :: 'r' :: 'a' :: 'p' :: 'e' :: rest => stripScrapeAux rest
  | c :: cs => c :: stripScrapeAux cs
  | [] => []

/-- `job_name.replace('_scrape', '')` (line 210). -/
def stripScrape (s : String) : String := ⟨stripScrapeAux s.toList⟩

/-- The `last_run_times` mapping, keyed by job-name stem. -/
abbrev LastRunTimes := List (String × Option PyDateTime)

/-- `self.last_run_times` as initialized in `__init__` (lines 53–61). -/
def initLastRunTimes : LastRunTimes :=
  [("app_store_full", Option.none), ("app_store_quick", Option.none),
   ("steam_comprehensive", Option.none), ("steam_quick", Option.none),
   ("events_comprehensive", Option.none), ("events_daily", Option.none),
   ("analysis", Option.none)]

/-- The job names `execute_job` recognizes (lines 185–202). -/
def knownJobNames : List String :=
  ["app_store_full_scrape", "app_store_quick_scrape",
   "steam_comprehensive_scrape", "steam_quick_scrape",
   "events_comprehensive_scrape", "events_daily_scrape",
   "comprehensive_analysis", "data_cleanup", "health_check"]

/-- The result dict built by `execute_job` (timing fields omitted). -/
structure JobResult where
  job : String
  status : String
  error : Option String
  data : Option Value
deriving DecidableEq, Repr

/-- `AutomatedDataPipeline.execute_job` (lines 177–222).  The job bodies
(`app_store_full_scrape`, ...) are abstracted into the `body` outcome:
`Except.ok d` models the body returning data `d`, `Except.error e` models
the body raising an exception with message `e` (caught by the `except`
block, which returns an error result without touching
`last_run_times` — line 210 sits inside the `try`).  For an unrecognized
name the result is an error dict but execution falls through to line 210,
so `last_run_times` is still updated.  `tEnd` models `datetime.now()` at
completion. -/
def executeJob (lrt : LastRunTimes) (jobName : String)
    (body : Except String Value) (tEnd : PyDateTime) : JobResult × LastRunTimes :=
  if jobName ∈ knownJobNames then
    match body with
    | .ok d =>
        (⟨jobName, "success", Option.none, some d⟩,
         setEntry lrt (stripScrape jobName) (some tEnd))
    | .error e =>
        (⟨jobName, "error", some e, Option.none⟩, lrt)
  else
    (⟨jobName, "error", some ("Unknown job: " ++ jobName), Option.none⟩,
     setEntry lrt (stripScrape jobName) (some tEnd))

/-- The slice of `get_pipeline_status` (lines 706–718) the claims need. -/
structure PipelineStatus where
  isRunning : Bool
  lastRunTimes : LastRunTimes
deriving Repr

/-- `get_pipeline_status` returns `self.last_run_times` unmodified. -/
def getPipelineStatus (running : Bool) (lrt : LastRunTimes) : PipelineStatus :=
  ⟨running, lrt⟩

/-- C8 counterexample: when the job body raises, `execute_job` returns the
error outcome from its `except` block without updating `last_run_times`,
so a failed invocation does not refresh `last_run` — the entry stays
`None`. -/
theorem executeJob_failure_skips_last_run :
    (executeJob initLastRunTimes "app_store_full_scrape"
        (Except.error "boom") nowW).2 = initLastRunTimes ∧
    rlookup (executeJob initLastRunTimes "app_store_full_scrape"
        (Except.error "boom") nowW).2 "app_store_full" = some Option.none ∧
    (executeJob initLastRunTimes "app_store_full_scrape"
        (Except.error "boom") nowW).1.status = "error" := by decide

/-- C8 amended: when a recognized job's body completes without raising,
`last_run_times[job_name.replace('_scrape','')]` is set to the completion
time and the success outcome (with its data) is recorded in the result;
when the body raises, the error outcome and message are recorded in the
result but `last_run_times` is left untouched. -/
theorem executeJob_last_run_update (lrt : LastRunTimes) (name : String)
    (d : Value) (e : String) (t : PyDateTime) (hk : name ∈ knownJobNames) :
    executeJob lrt name (Except.ok d) t
        = (⟨name, "success", Option.none, some d⟩,
           setEntry lrt (stripScrape name) (some t)) ∧
    executeJob lrt name (Except.error e) t
        = (⟨name, "error", some e, Option.none⟩, lrt) := by
  constructor <;> (unfold executeJob; rw [if_pos hk])

/-- Witness for the amended C8 at a concrete job. -/
theorem executeJob_last_run_update_witness :
    executeJob initLastRunTimes "steam_quick_scrape"
        (Except.ok (Value.num 1)) nowW
      = (⟨"steam_quick_scrape", "success", Option.none, some (Value.num 1)⟩,
         setEntry initLastRunTimes (stripScrape "steam_quick_scrape") (some nowW)) ∧
    executeJob initLastRunTimes "steam_quick_scrape" (Except.error "x") nowW
      = (⟨"steam_quick_scrape", "error", some "x", Option.none⟩,
         initLastRunTimes) :=
  executeJob_last_run_update initLastRunTimes "steam_quick_scrape"
    (Value.num 1) "x" nowW (by decide)

/-- One successful `comprehensive_analysis` execution, as a fold step. -/
def analysisRun (lrt : LastRunTimes) (p : Value × PyDateTime) : LastRunTimes :=
  (executeJob lrt "comprehensive_analysis" (Except.ok p.1) p.2).2

theorem analysisRun_eq (lrt : LastRunTimes) (p : Value × PyDateTime) :
    analysisRun lrt p = setEntry lrt "comprehensive_analysis" (some p.2) := by
  unfold analysisRun executeJob
  rw [if_pos (by decide : "comprehensive_analysis" ∈ knownJobNames),
      show stripScrape "comprehensive_analysis" = "comprehensive_analysis" by decide]

theorem foldl_analysisRun_analysis_none (runs : List (Value × PyDateTime))
    (lrt : LastRunTimes) (h : rlookup lrt "analysis" = some Option.none) :
    rlookup (runs.foldl analysisRun lrt) "analysis" = some Option.none := by
  induction runs generalizing lrt with
  | nil => exact h
  | cons p rest ih =>
      rw [List.foldl_cons]
      apply ih
      rw [analysisRun_eq,
          rlookup_setEntry_other lrt "comprehensive_analysis" "analysis" _ (by decide)]
      exact h

/-- C10: after any number of successful `comprehensive_analysis` runs
starting from the freshly initialized pipeline, the completion time is
recorded under the key `comprehensive_analysis` (the job name with
`'_scrape'` removed — which removes nothing here), while the
pre-initialized `analysis` entry remains `None`, so `get_pipeline_status`
reports `analysis: None` no matter how many analysis runs completed. -/
theorem comprehensive_analysis_never_updates_analysis
    (runs : List (Value × PyDateTime)) (running : Bool) (d : Value)
    (t : PyDateTime) :
    rlookup (getPipelineStatus running
        (runs.foldl analysisRun initLastRunTimes)).lastRunTimes "analysis"
      = some Option.none ∧
    rlookup ((runs ++ [(d, t)]).foldl analysisRun initLastRunTimes)
        "comprehensive_analysis" = some (some t) := by
  constructor
  · exact foldl_analysisRun_analysis_none runs initLastRunTimes rfl
  · rw [List.foldl_append, List.foldl_cons, List.foldl_nil, analysisRun_eq,
        rlookup_setEntry_self]

/-! ### Cache (C9) and scheduler (C1) -/

/-- The in-memory `data_cache` snapshots (lines 64–70; the `analysis` and
`last_updated` slots are not needed by the claims). -/
structure DataCache where
  apps : List Record
  steamGames : List Record
  events : List Record
deriving Repr

/-- Loop body of `deduplicate_apps_cache` (lines 720–731): keep an app iff
its `app_store_id` is truthy and unseen; falsy ids are dropped. -/
def deduplicateAppsCacheAux (seen : List Value) : List Record → List Record
  | [] => []
  | app :: rest =>
      if (getVal app "app_store_id").truthy = true ∧
          getVal app "app_store_id" ∉ seen then
        app :: deduplicateAppsCacheAux (getVal app "app_store_id" :: seen) rest
      else deduplicateAppsCacheAux seen rest

/-- `AutomatedDataPipeline.deduplicate_apps_cache`. -/
def deduplicateAppsCache (apps : List Record) : List Record :=
  deduplicateAppsCacheAux [] apps

/-- A value of the dict returned by `scrape_comprehensive_trending`:
either a list of game records or some other value (skipped by the
`isinstance(games, list)` check). -/
inductive TrendEntry where
  | records : List Record → TrendEntry
  | other : Value → TrendEntry

/-- `all_games` as accumulated in `steam_comprehensive_scrape`
(lines 317–320). -/
def steamAllGames (trending : List (String × TrendEntry)) : List Record :=
  trending.foldl
    (fun acc e =>
      match e.2 with
      | .records gs => acc ++ gs
      | .other _ => acc) []

/-- `self.data_cache['steam_games'] = all_games` (line 325): wholesale
replacement, no deduplication pass. -/
def setSteamCache (c : DataCache) (trending : List (String × TrendEntry)) :
    DataCache :=
  { c with steamGames := steamAllGames trending }

/-- A Steam game record used by the C9 counterexample. -/
def tf2Rec : Record := [("steam_id", Value.str "440"), ("title", Value.str "TF2")]

/-- C9 counterexample: `steam_comprehensive_scrape` stores `all_games` in
the cache as-is — a batch containing the same `steam_id` twice is cached
with the repeated natural key, so reading the `steam_games` snapshot does
not return a deduplicated list. -/
theorem steam_cache_not_deduplicated :
    ((setSteamCache ⟨[], [], []⟩
        [("top_sellers", TrendEntry.records [tf2Rec, tf2Rec])]).steamGames).map
        (fun g => getVal g "steam_id")
      = [Value.str "440", Value.str "440"] ∧
    ¬ (((setSteamCache ⟨[], [], []⟩
        [("top_sellers", TrendEntry.records [tf2Rec, tf2Rec])]).steamGames).map
        (fun g => getVal g "steam_id")).Nodup := by decide

theorem deduplicateAppsCacheAux_spec (apps : List Record) (seen : List Value) :
    ((deduplicateAppsCacheAux seen apps).map
        (fun a => getVal a "app_store_id")).Nodup ∧
    (∀ k ∈ (deduplicateAppsCacheAux seen apps).map
        (fun a => getVal a "app_store_id"), k ∉ seen) ∧
    (deduplicateAppsCacheAux seen apps).Sublist apps ∧
    (∀ a ∈ apps, (getVal a "app_store_id").truthy = true →
      getVal a "app_store_id" ∈ seen ∨
      getVal a "app_store_id" ∈ (deduplicateAppsCacheAux seen apps).map
        (fun a => getVal a "app_store_id")) := by
  induction apps generalizing seen with
  | nil =>
      exact ⟨List.nodup_nil, fun k hk => absurd hk (List.not_mem_nil k),
        List.Sublist.refl [], fun a ha => absurd ha (List.not_mem_nil a)⟩
  | cons app rest ih =>
      by_cases hc : (getVal app "app_store_id").truthy = true ∧
          getVal app "app_store_id" ∉ seen
      · have hrec := ih (getVal app "app_store_id" :: seen)
        have hstep : deduplicateAppsCacheAux seen (app :: rest)
            = app :: deduplicateAppsCacheAux (getVal app "app_store_id" :: seen) rest := by
          rw [deduplicateAppsCacheAux, if_pos hc]
        rw [hstep]
        refine ⟨?_, ?_, List.Sublist.cons₂ app hrec.2.2.1, ?_⟩
        · rw [List.map_cons]
          exact List.nodup_cons.mpr
            ⟨fun hmem => (hrec.2.1 _ hmem) (List.mem_cons_self _ _), hrec.1⟩
        · intro k hk
          rw [List.map_cons] at hk
          cases List.mem_cons.mp hk with
          | inl hke => rw [hke]; exact hc.2
          | inr hkm =>
              intro hks
              exact hrec.2.1 k hkm (List.mem_cons_of_mem _ hks)
        · intro a ha htr
          cases List.mem_cons.mp ha with
          | inl hae =>
              right
              rw [List.map_cons, hae]
              exact List.mem_cons_self _ _
          | inr ham =>
              cases hrec.2.2.2 a ham htr with
              | inl hin =>
                  cases List.mem_cons.mp hin with
                  | inl heq =>
                      right
                      rw [List.map_cons, heq]
                      exact List.mem_cons_self _ _
                  | inr hse => exact Or.inl hse
              | inr hin =>
                  right
                  rw [List.map_cons]
                  exact List.mem_cons_of_mem _ hin
      · have hrec := ih seen
        have hstep : deduplicateAppsCacheAux seen (app :: rest)
            = deduplicateAppsCacheAux seen rest := by
          rw [deduplicateAppsCacheAux, if_neg hc]
        rw [hstep]
        refine ⟨hrec.1, hrec.2.1, hrec.2.2.1.cons app, ?_⟩
        intro a ha htr
        cases List.mem_cons.mp ha with
        | inl hae =>
            left
            rw [hae]
            by_cases hs : getVal app "app_store_id" ∈ seen
            · exact hs
            · rw [hae] at htr
              exact absurd ⟨htr, hs⟩ hc
        | inr ham => exact hrec.2.2.2 a ham htr

/-- C9 amended: only the apps cache is deduplicated —
`deduplicate_apps_cache` returns a list with no repeated `app_store_id`,
preserving the input order (a sublist keeps first-seen relative order) and
retaining every truthy natural key (records with a missing or falsy id are
dropped); the `steam_games` (and `events`) snapshots are replaced
wholesale with no deduplication pass. -/
theorem cache_dedup_apps_only :
    (∀ apps : List Record,
      ((deduplicateAppsCache apps).map (fun a => getVal a "app_store_id")).Nodup ∧
      (deduplicateAppsCache apps).Sublist apps ∧
      (∀ a ∈ apps, (getVal a "app_store_id").truthy = true →
        getVal a "app_store_id" ∈ (deduplicateAppsCache apps).map
          (fun a => getVal a "app_store_id"))) ∧
    (∀ c : DataCache, ∀ trending : List (String × TrendEntry),
      (setSteamCache c trending).steamGames = steamAllGames trending) := by
  constructor
  · intro apps
    have h := deduplicateAppsCacheAux_spec apps []
    refine ⟨h.1, h.2.2.1, ?_⟩
    intro a ha htr
    cases h.2.2.2 a ha htr with
    | inl hin => exact absurd hin (List.not_mem_nil _)
    | inr hin => exact hin
  · intro c trending
    rfl

/-- Witness for the amended C9: a duplicated app record keeps exactly its
key once. -/
theorem cache_dedup_apps_only_witness :
    getVal tf2Rec "steam_id" ∉ ([] : List Value) ∧
    ((deduplicateAppsCache [upsertRec1, upsertRec1]).map
        (fun a => getVal a "app_store_id")).Nodup ∧
    getVal upsertRec1 "app_store_id" ∈ (deduplicateAppsCache [upsertRec1, upsertRec1]).map
        (fun a => getVal a "app_store_id") :=
  ⟨List.not_mem_nil _,
   (cache_dedup_apps_only.1 [upsertRec1, upsertRec1]).1,
   (cache_dedup_apps_only.1 [upsertRec1, upsertRec1]).2.2 upsertRec1
     (List.mem_cons_self _ _) (by decide)⟩

/-- A job as registered with the `schedule` library: interval in seconds
and the next due time (`schedule.every(N).hours.do(...)` sets
`next_run = registration time + interval`, and each run re-arms
`next_run = now + interval`). -/
structure SchedJob where
  name : String
  intervalSecs : Nat
  nextRun : Nat
deriving DecidableEq, Repr

/-- Scheduler-visible pipeline state: the running flag, the registered
jobs, and the multiset (as a list) of dispatched-but-unfinished
invocations sitting in the `ThreadPoolExecutor`. -/
structure SchedState where
  isRunning : Bool
  jobs : List SchedJob
  inFlight : List String
deriving DecidableEq, Repr

/-- `AutomatedDataPipeline.run_job_async` (lines 169–175): when the
pipeline is running, submit the job to the executor unconditionally —
the function consults no record of in-flight invocations. -/
def runJobAsync (st : SchedState) (name : String) : SchedState :=
  if st.isRunning then { st with inFlight := st.inFlight ++ [name] } else st

/-- One `schedule.run_pending()` poll of `run_scheduler` (lines 155–167)
at time `now`: every due job (`next_run ≤ now`) runs `run_job_async` and is
re-armed to `now + interval`. -/
def tick (st : SchedState) (now : Nat) : SchedState :=
  { (st.jobs.filter (fun j => j.nextRun ≤ now)).foldl
      (fun acc j => runJobAsync acc j.name) st with
    jobs := st.jobs.map fun j =>
      if j.nextRun ≤ now then { j with nextRun := now + j.intervalSecs } else j }

/-- Completion of one invocation frees its executor slot. -/
def completeJob (st : SchedState) (name : String) : SchedState :=
  { st with inFlight := st.inFlight.erase name }

/-- The `comprehensive_analysis` job with its 2-hour interval, registered
at t = 0. -/
def schedJob0 : SchedJob := ⟨"comprehensive_analysis", 7200, 7200⟩

/-- Running pipeline with the one job and an idle executor. -/
def schedState0 : SchedState := ⟨true, [schedJob0], []⟩

/-- C1 failing-input evaluation: the 2-hour job is dispatched at t = 7200
and — with the first invocation still in flight, no completion having
occurred — dispatched again at t = 14400, so two invocations of the same
job are in flight simultaneously: `run_job_async` has no in-flight guard.
Also, a never-run job is not dispatched at a tick right after
registration (the `schedule` library arms `next_run` one full interval
ahead). -/
theorem scheduler_double_dispatch :
    (tick (tick schedState0 7200) 14400).inFlight.count "comprehensive_analysis" = 2 ∧
    (tick schedState0 0).inFlight = [] := by decide

end Trends
